import Mathlib

/-!
Verification of the wafer-mapper core: the grid-generation and
containment-classification algorithm of geometry.js and the position-based
reconciliation algorithm of state.js / export.js.

Numbers are modelled by exact rationals (ℚ).  The two transcendental values
the source computes once per generation call, Math.cos(flatAngleRad / 2) and
Math.sin(flatAngleRad / 2), are threaded through as explicit parameters
(cosHalf, sinHalf) so every definition stays executable; theorems that speak
about the flat angle relate these parameters to Real.cos / Real.sin.  The
source's test Math.sqrt(x * x + y * y) > usableRadius is embedded as the
equivalent rational comparison (usableRadius < 0 or the squared comparison);
the lemma cornerInCircle_iff_sqrt proves the encoding equal to the genuine
square-root test over ℝ.
-/

namespace WaferMapper

/-- Result of getFlatCutoff in geometry.js: the x cutoff of the flat chord and
the maximal |y| extent of the flat edge. -/
structure FlatParams where
  xCutoff : ℚ
  yMax : ℚ
deriving DecidableEq

/-- Wafer parameters consumed by generateChipGrid (geometry.js): diameter,
flat angle in degrees, excluded edge radius, all in millimeters. -/
structure WaferParams where
  diameter : ℚ
  flatAngle : ℚ
  excludedRadius : ℚ
deriving DecidableEq

/-- One chip record as produced by generateChipGrid in geometry.js. -/
structure Chip where
  id : ℕ
  x : ℚ
  y : ℚ
  width : ℚ
  height : ℚ
  inside : Bool
  color : String
  label : String
  number : Option ℕ
deriving DecidableEq

/-- getFlatCutoff from geometry.js.  cosHalf and sinHalf stand for the values
Math.cos(flatAngleRad / 2) and Math.sin(flatAngleRad / 2) computed there from
flatAngleDeg; they are passed in so the definition is executable over ℚ. -/
def getFlatCutoff (waferRadius cosHalf sinHalf : ℚ) : FlatParams :=
  { xCutoff := -waferRadius * cosHalf
    yMax := waferRadius * sinHalf }

/-- The four corners of a chip whose bottom-left corner is (x, y), in the
order built in isChipInsideWafer: bottom-left, bottom-right, top-left,
top-right. -/
def chipCorners (x y chipWidth chipHeight : ℚ) : List (ℚ × ℚ) :=
  [(x, y), (x + chipWidth, y), (x, y + chipHeight), (x + chipWidth, y + chipHeight)]

/-- Embedding of the per-corner circle test of isChipInsideWafer.  The source
returns false when Math.sqrt(cx * cx + cy * cy) > usableRadius; a corner passes
iff the distance is at most usableRadius, i.e. iff usableRadius is nonnegative
and the squared distance is at most its square (see cornerInCircle_iff_sqrt). -/
def cornerInCircle (cx cy usableRadius : ℚ) : Bool :=
  decide (0 ≤ usableRadius) && decide (cx * cx + cy * cy ≤ usableRadius * usableRadius)

/-- The per-corner flat-cutoff test of isChipInsideWafer:
corner.x < flatParams.xCutoff and Math.abs(corner.y) < flatParams.yMax. -/
def cornerInFlatRegion (cx cy : ℚ) (flatParams : FlatParams) : Bool :=
  decide (cx < flatParams.xCutoff) && decide (|cy| < flatParams.yMax)

/-- isChipInsideWafer from geometry.js: a chip is inside iff every one of its
four corners is within the usable circle and not in the flat cutoff region. -/
def isChipInsideWafer (x y chipWidth chipHeight usableRadius : ℚ)
    (flatParams : FlatParams) : Bool :=
  (chipCorners x y chipWidth chipHeight).all fun p =>
    cornerInCircle p.1 p.2 usableRadius && !(cornerInFlatRegion p.1 p.2 flatParams)

/-- Per-generation context computed at the top of generateChipGrid:
grid origin, chip dimensions, usable radius and flat parameters. -/
structure GenCtx where
  xStart : ℚ
  yStart : ℚ
  chipWidth : ℚ
  chipHeight : ℚ
  usableRadius : ℚ
  flat : FlatParams
deriving DecidableEq

/-- Bottom-left x coordinate of the cell at (row, col): xStart + col * chipWidth. -/
def cellX (g : GenCtx) (rc : ℕ × ℕ) : ℚ := g.xStart + (rc.2 : ℚ) * g.chipWidth

/-- Bottom-left y coordinate of the cell at (row, col): yStart + row * chipHeight. -/
def cellY (g : GenCtx) (rc : ℕ × ℕ) : ℚ := g.yStart + (rc.1 : ℚ) * g.chipHeight

/-- Containment classification of the cell at (row, col). -/
def cellInside (g : GenCtx) (rc : ℕ × ℕ) : Bool :=
  isChipInsideWafer (cellX g rc) (cellY g rc) g.chipWidth g.chipHeight
    g.usableRadius g.flat

/-- The chip object pushed by one iteration of the first-pass loop body of
generateChipGrid, given the current values of the chipId and chipNumber
counters. -/
def mkChip (g : GenCtx) (rc : ℕ × ℕ) (chipId chipNumber : ℕ) : Chip :=
  { id := chipId
    x := cellX g rc
    y := cellY g rc
    width := g.chipWidth
    height := g.chipHeight
    inside := cellInside g rc
    color := "#ffffff"
    label := ""
    number := if cellInside g rc then some chipNumber else none }

/-- The first-pass nested loops of generateChipGrid over a row-major cell list,
with the two mutable counters chipId and chipNumber made explicit: chipId is
incremented for every chip, chipNumber only when the chip is inside. -/
def buildChips (g : GenCtx) : List (ℕ × ℕ) → ℕ → ℕ → List Chip
  | [], _, _ => []
  | rc :: rest, chipId, chipNumber =>
    mkChip g rc chipId chipNumber ::
      buildChips g rest (chipId + 1)
        (if cellInside g rc then chipNumber + 1 else chipNumber)

/-- Row-major enumeration of (row, col) cells, matching the nested for loops
for (row = 0; row < numRows; row++) / for (col = 0; col < numCols; col++). -/
def gridCells (numRows numCols : ℕ) : List (ℕ × ℕ) :=
  (List.range numRows).flatMap fun row => (List.range numCols).map fun col => (row, col)

/-- numCols of generateChipGrid: Math.ceil(diameter / chipWidth) + 2.  An
integer so that the nonpositive case (negative chipWidth) is represented; the
JavaScript loop runs zero times then, matched by Int.toNat below. -/
def numColsOf (wp : WaferParams) (chipWidth : ℚ) : ℤ :=
  ⌈wp.diameter / chipWidth⌉ + 2

/-- numRows of generateChipGrid: Math.ceil(diameter / chipHeight) + 2. -/
def numRowsOf (wp : WaferParams) (chipHeight : ℚ) : ℤ :=
  ⌈wp.diameter / chipHeight⌉ + 2

/-- The context generateChipGrid computes before its first pass: waferRadius,
usableRadius, grid extent (gridWidth = numCols * chipWidth and likewise for
height), centered origin xStart = -gridWidth / 2, yStart = -gridHeight / 2,
and the flat parameters from the full wafer radius. -/
def genCtx (wp : WaferParams) (chipWidth chipHeight cosHalf sinHalf : ℚ) : GenCtx :=
  { xStart := -((numColsOf wp chipWidth : ℚ) * chipWidth) / 2
    yStart := -((numRowsOf wp chipHeight : ℚ) * chipHeight) / 2
    chipWidth := chipWidth
    chipHeight := chipHeight
    usableRadius := wp.diameter / 2 - wp.excludedRadius
    flat := getFlatCutoff (wp.diameter / 2) cosHalf sinHalf }

/-- Output of the first pass of generateChipGrid (tempChips): all chips in
row-major scan order, ids from 0, provisional sequential numbers from 1. -/
def firstPass (wp : WaferParams) (chipWidth chipHeight cosHalf sinHalf : ℚ) :
    List Chip :=
  buildChips (genCtx wp chipWidth chipHeight cosHalf sinHalf)
    (gridCells (numRowsOf wp chipHeight).toNat (numColsOf wp chipWidth).toNat) 0 1

/-- Sort key of the second pass of generateChipGrid:
(a, b) => a.y - b.y || a.x - b.x, i.e. ascending y then ascending x. -/
def chipLE (a b : Chip) : Prop := a.y < b.y ∨ (a.y = b.y ∧ a.x ≤ b.x)

/-- Strict version of the sort key; distinct grid cells compare strictly. -/
def chipLT (a b : Chip) : Prop := a.y < b.y ∨ (a.y = b.y ∧ a.x < b.x)

instance : DecidableRel chipLE := fun a b => by unfold chipLE; infer_instance

instance : DecidableRel chipLT := fun a b => by unfold chipLT; infer_instance

/-- The second-pass renumbering of generateChipGrid.  The source mutates the
chip objects of the sorted filtered array in place (chip.number = index + 1);
since ids are unique, the mutation is modelled by looking up each inside
chip's position in the sorted list by id. -/
def renumber (sorted : List Chip) (c : Chip) : Chip :=
  if c.inside then
    { c with number := some (sorted.findIdx (fun d => d.id == c.id) + 1) }
  else c

/-- generateChipGrid from geometry.js: first pass builds all chips in
row-major order, second pass sorts the inside chips by ascending y then
ascending x and reassigns number = index + 1 in that order; the returned array
holds every chip (inside and outside).  The JavaScript Array.prototype.sort
call is modelled by insertionSort; the comparator is a strict total order on
the inside chips (distinct cells have distinct coordinates when the chip
dimensions are positive), so any correct sort yields this unique result. -/
def generateChipGrid (wp : WaferParams) (chipWidth chipHeight cosHalf sinHalf : ℚ) :
    List Chip :=
  let tempChips := firstPass wp chipWidth chipHeight cosHalf sinHalf
  let insideChips := (tempChips.filter (·.inside)).insertionSort chipLE
  tempChips.map (renumber insideChips)

/-- Modelled from the spec: a reference circle-only corner test — a chip is
inside iff all four corners lie within the usable radius, with no flat test. -/
def isChipInsideCircle (x y chipWidth chipHeight usableRadius : ℚ) : Bool :=
  (chipCorners x y chipWidth chipHeight).all fun p => cornerInCircle p.1 p.2 usableRadius

/-- Modelled from the spec: first pass of a reference generator that performs
only the circle test (the flat test never applies). -/
def buildChipsCircle (g : GenCtx) : List (ℕ × ℕ) → ℕ → ℕ → List Chip
  | [], _, _ => []
  | rc :: rest, chipId, chipNumber =>
    let ins := isChipInsideCircle (cellX g rc) (cellY g rc) g.chipWidth g.chipHeight
      g.usableRadius
    { id := chipId
      x := cellX g rc
      y := cellY g rc
      width := g.chipWidth
      height := g.chipHeight
      inside := ins
      color := "#ffffff"
      label := ""
      number := if ins then some chipNumber else none } ::
      buildChipsCircle g rest (chipId + 1) (if ins then chipNumber + 1 else chipNumber)

/-- Modelled from the spec: the reference generator classifying each chip by
the circular bound alone, with the same grid layout, ordering and numbering
as generateChipGrid. -/
def generateChipGridCircleOnly (wp : WaferParams) (chipWidth chipHeight : ℚ) :
    List Chip :=
  let g := genCtx wp chipWidth chipHeight 1 0
  let tempChips := buildChipsCircle g
    (gridCells (numRowsOf wp chipHeight).toNat (numColsOf wp chipWidth).toNat) 0 1
  let insideChips := (tempChips.filter (·.inside)).insertionSort chipLE
  tempChips.map (renumber insideChips)

/-- One chip record of the imported JSON document, restricted to the fields
WaferState.load reads during matching: position and the user data it copies.
Absent JSON fields are modelled by none; JavaScript truthiness makes an
absent field and an empty string behave identically. -/
structure SavedChip where
  x : ℚ
  y : ℚ
  color : Option String
  label : Option String
deriving DecidableEq

/-- JavaScript truthiness of an optional string field: undefined, null and
the empty string are falsy, every other string is truthy. -/
def truthyStr : Option String → Bool
  | none => false
  | some s => decide (s ≠ "")

/-- The matching tolerance of WaferState.load:
Math.abs(importedChip.x - newChip.x) < 0.1 and likewise for y. -/
def matchesPos (ic : SavedChip) (nc : Chip) : Bool :=
  decide (|ic.x - nc.x| < 1 / 10) && decide (|ic.y - nc.y| < 1 / 10)

/-- Property copying of WaferState.load once a match is found:
if (matchingChip.color) newChip.color = matchingChip.color, then the same for
label. -/
def applySaved (ic : SavedChip) (nc : Chip) : Chip :=
  let nc1 := if truthyStr ic.color then { nc with color := ic.color.getD nc.color } else nc
  if truthyStr ic.label then { nc1 with label := ic.label.getD nc1.label } else nc1

/-- The body of the newChips.forEach loop of WaferState.load: only inside
chips are matched; Array.prototype.find returns the first saved chip in
saved-list order within tolerance. -/
def reconcileChip (importedChips : List SavedChip) (nc : Chip) : Chip :=
  if nc.inside then
    match importedChips.find? (fun ic => matchesPos ic nc) with
    | some m => applySaved m nc
    | none => nc
  else nc

/-- The reconciliation pass of WaferState.load over the freshly generated
chips.  The source mutates newChips in place; unmatched and outside chips
pass through unchanged. -/
def reconcile (importedChips : List SavedChip) (newChips : List Chip) : List Chip :=
  newChips.map (reconcileChip importedChips)

/-- Chip record as written by ExportTools.exportToJson and read back by
WaferState.load, restricted to the fields load consumes: position is
serialized exactly, color and label are always present (the generator
initializes both), and null-valued fields (number of an outside chip) are
stripped, which does not affect matching. -/
def exportChip (c : Chip) : SavedChip :=
  { x := c.x, y := c.y, color := some c.color, label := some c.label }

/-- Private waferParams state of state.js (exportTimestamp, which no claim
touches, is omitted). -/
structure StateWaferParams where
  diameter : ℚ
  flatAngle : ℚ
  excludedRadius : ℚ
  name : String
deriving DecidableEq

/-- Private chipParams state of state.js. -/
structure StateChipParams where
  width : ℚ
  height : ℚ
  labelFontSize : ℚ
deriving DecidableEq

/-- Argument of updateWaferParams: a parsed waferParams object whose fields
may each be absent (none).  A wrong-typed waferParams value (e.g. a number)
reads all fields as undefined and acts like the all-none update. -/
structure WaferParamsUpdate where
  diameter : Option ℚ := none
  flatAngle : Option ℚ := none
  excludedRadius : Option ℚ := none
  name : Option String := none
deriving DecidableEq

/-- updateWaferParams from state.js: diameter is guarded by truthiness
(if (params.diameter)), so a present zero is ignored; flatAngle,
excludedRadius and name are guarded by params.field !== undefined. -/
def updateWaferParams (p : WaferParamsUpdate) (w : StateWaferParams) : StateWaferParams :=
  { diameter := match p.diameter with
      | some d => if d = 0 then w.diameter else d
      | none => w.diameter
    flatAngle := p.flatAngle.getD w.flatAngle
    excludedRadius := p.excludedRadius.getD w.excludedRadius
    name := p.name.getD w.name }

/-- Argument of updateChipParams: a parsed chipParams object. -/
structure ChipParamsUpdate where
  width : Option ℚ := none
  height : Option ℚ := none
  labelFontSize : Option ℚ := none
deriving DecidableEq

/-- updateChipParams from state.js: width and height are guarded by
truthiness (a present zero is ignored), labelFontSize by !== undefined. -/
def updateChipParams (p : ChipParamsUpdate) (cp : StateChipParams) : StateChipParams :=
  { width := match p.width with
      | some v => if v = 0 then cp.width else v
      | none => cp.width
    height := match p.height with
      | some v => if v = 0 then cp.height else v
      | none => cp.height
    labelFontSize := p.labelFontSize.getD cp.labelFontSize }

/-- Shape of data.chips after a successful JSON.parse: absent covers
undefined/null/falsy (importedChips stays []); array is the expected shape;
nonArray is a present truthy value without a find method, on which
importedChips.find throws a TypeError. -/
inductive ChipsField where
  | absent
  | array (chips : List SavedChip)
  | nonArray
deriving DecidableEq

/-- A successfully parsed import document as WaferState.load reads it. -/
structure ParsedDoc where
  waferParams : Option WaferParamsUpdate := none
  chipParams : Option ChipParamsUpdate := none
  chips : ChipsField := ChipsField.absent
deriving DecidableEq

/-- The module-level state of state.js that WaferState.load reads and
writes: wafer parameters, chip parameters and the current chip collection. -/
structure AppState where
  waferParams : StateWaferParams
  chipParams : StateChipParams
  chips : List Chip
deriving DecidableEq

/-- The parameter-update prefix of WaferState.load:
if (data.waferParams) this.updateWaferParams(data.waferParams) and the same
for chipParams.  These mutations happen before the chips field is examined. -/
def applyDocParams (st : AppState) (data : ParsedDoc) : AppState :=
  { st with
    waferParams := match data.waferParams with
      | some u => updateWaferParams u st.waferParams
      | none => st.waferParams
    chipParams := match data.chipParams with
      | some u => updateChipParams u st.chipParams
      | none => st.chipParams }

/-- Regeneration step of WaferState.load: generateChipGrid on the current
(post-update) parameters.  cosHalf and sinHalf stand for the trigonometric
values Math.cos/Math.sin compute from half the current flat angle in radians. -/
def regenChips (cosHalf sinHalf : ℚ) (st : AppState) : List Chip :=
  generateChipGrid
    { diameter := st.waferParams.diameter
      flatAngle := st.waferParams.flatAngle
      excludedRadius := st.waferParams.excludedRadius }
    st.chipParams.width st.chipParams.height cosHalf sinHalf

/-- WaferState.load from state.js.  doc = none models a JSON string on which
JSON.parse throws: the catch block returns false with nothing mutated.  When
the document parses, parameter updates are applied first, the grid is
regenerated, and the imported chips are matched; a truthy non-array chips
field makes importedChips.find throw on the first inside chip — the catch
block then returns false with the parameter updates already applied and the
chip collection untouched.  When no new chip is inside, find is never called
and such a document loads successfully. -/
def load (cosHalf sinHalf : ℚ) (st : AppState) (doc : Option ParsedDoc) :
    Bool × AppState :=
  match doc with
  | none => (false, st)
  | some data =>
    let st1 := applyDocParams st data
    let newChips := regenChips cosHalf sinHalf st1
    match data.chips with
    | ChipsField.nonArray =>
      if newChips.any (·.inside) then (false, st1)
      else (true, { st1 with chips := newChips })
    | ChipsField.absent => (true, { st1 with chips := reconcile [] newChips })
    | ChipsField.array imported => (true, { st1 with chips := reconcile imported newChips })

/-- Distance-at-most-usableRadius and not-in-flat-region admissibility of one
corner, stated with the genuine real square root the source computes. -/
def cornerAdmissible (usableRadius xCut yM : ℚ) (p : ℚ × ℚ) : Prop :=
  Real.sqrt ((p.1 : ℝ) ^ 2 + (p.2 : ℝ) ^ 2) ≤ (usableRadius : ℝ) ∧
    ¬(p.1 < xCut ∧ |p.2| < yM)

/-- Agreement of two chip records on every field generation computes
(identity, geometry, classification, numbering), leaving only the
user-editable color and label free. -/
def geoEqChip (a b : Chip) : Prop :=
  a.id = b.id ∧ a.x = b.x ∧ a.y = b.y ∧ a.width = b.width ∧ a.height = b.height ∧
    a.inside = b.inside ∧ a.number = b.number

/-- edited is orig with arbitrary per-chip color/label edits: same length and
pointwise agreement on all generation-computed fields. -/
def editedFrom (orig edited : List Chip) : Prop :=
  edited.length = orig.length ∧
    ∀ (i : ℕ) (h1 : i < edited.length) (h2 : i < orig.length),
      geoEqChip (edited.get ⟨i, h1⟩) (orig.get ⟨i, h2⟩)

/-- The initial state of state.js: diameter 101.6, flat angle 30, excluded
radius 0, chip 10 by 12, label font size 0.18. -/
def defaultState : AppState :=
  { waferParams := { diameter := 508 / 5, flatAngle := 30, excludedRadius := 0, name := "" }
    chipParams := { width := 10, height := 12, labelFontSize := 9 / 50 }
    chips := [] }

/-- A parsed document whose chips field is a truthy non-array and whose
waferParams update sets diameter 40 and flat angle 0. -/
def badChipsDoc : ParsedDoc :=
  { waferParams := some { diameter := some 40, flatAngle := some 0 }
    chipParams := none
    chips := ChipsField.nonArray }

/-- A parsed document with every expected field missing. -/
def emptyDoc : ParsedDoc :=
  { waferParams := none, chipParams := none, chips := ChipsField.absent }

/-- Round-trip counterexample geometry: wafer of diameter 0.15 with no flat
and no exclusion, chips of 0.05 by 0.05 — a pitch below the 0.1 matching
tolerance. -/
def tinyWafer : WaferParams := { diameter := 3 / 20, flatAngle := 0, excludedRadius := 0 }

/-- Generated grid of the round-trip counterexample (25 chips, exactly one
inside, at (-1/40, -1/40)). -/
def tinyGrid : List Chip := generateChipGrid tinyWafer (1 / 20) (1 / 20) 1 0

/-- The counterexample edit: label the inside chip at (-1/40, -1/40) with A. -/
def tinyEdited : List Chip :=
  tinyGrid.map fun c =>
    if c.x = -1 / 40 ∧ c.y = -1 / 40 then { c with label := "A" } else c

/-- The exported saved list of the round-trip counterexample. -/
def tinySaved : List SavedChip := tinyEdited.map exportChip

/-- Reconciliation of the regenerated grid against the exported list. -/
def tinyRecon : List Chip := reconcile tinySaved tinyGrid

@[simp] lemma mkChip_id (g : GenCtx) (rc : ℕ × ℕ) (a b : ℕ) : (mkChip g rc a b).id = a := rfl

@[simp] lemma mkChip_x (g : GenCtx) (rc : ℕ × ℕ) (a b : ℕ) : (mkChip g rc a b).x = cellX g rc := rfl

@[simp] lemma mkChip_y (g : GenCtx) (rc : ℕ × ℕ) (a b : ℕ) : (mkChip g rc a b).y = cellY g rc := rfl

@[simp] lemma mkChip_width (g : GenCtx) (rc : ℕ × ℕ) (a b : ℕ) :
    (mkChip g rc a b).width = g.chipWidth := rfl

@[simp] lemma mkChip_height (g : GenCtx) (rc : ℕ × ℕ) (a b : ℕ) :
    (mkChip g rc a b).height = g.chipHeight := rfl

@[simp] lemma mkChip_inside (g : GenCtx) (rc : ℕ × ℕ) (a b : ℕ) :
    (mkChip g rc a b).inside = cellInside g rc := rfl

@[simp] lemma mkChip_color (g : GenCtx) (rc : ℕ × ℕ) (a b : ℕ) :
    (mkChip g rc a b).color = "#ffffff" := rfl

@[simp] lemma mkChip_label (g : GenCtx) (rc : ℕ × ℕ) (a b : ℕ) :
    (mkChip g rc a b).label = "" := rfl

lemma mkChip_number (g : GenCtx) (rc : ℕ × ℕ) (a b : ℕ) :
    (mkChip g rc a b).number = if cellInside g rc then some b else none := rfl

@[simp] lemma renumber_id (s : List Chip) (c : Chip) : (renumber s c).id = c.id := by
  unfold renumber; split <;> rfl

@[simp] lemma renumber_x (s : List Chip) (c : Chip) : (renumber s c).x = c.x := by
  unfold renumber; split <;> rfl

@[simp] lemma renumber_y (s : List Chip) (c : Chip) : (renumber s c).y = c.y := by
  unfold renumber; split <;> rfl

@[simp] lemma renumber_width (s : List Chip) (c : Chip) : (renumber s c).width = c.width := by
  unfold renumber; split <;> rfl

@[simp] lemma renumber_height (s : List Chip) (c : Chip) : (renumber s c).height = c.height := by
  unfold renumber; split <;> rfl

@[simp] lemma renumber_inside (s : List Chip) (c : Chip) : (renumber s c).inside = c.inside := by
  unfold renumber; split <;> rfl

@[simp] lemma renumber_color (s : List Chip) (c : Chip) : (renumber s c).color = c.color := by
  unfold renumber; split <;> rfl

@[simp] lemma renumber_label (s : List Chip) (c : Chip) : (renumber s c).label = c.label := by
  unfold renumber; split <;> rfl

lemma renumber_of_not_inside (s : List Chip) (c : Chip) (h : c.inside = false) :
    renumber s c = c := by
  unfold renumber; simp [h]

@[simp] lemma buildChips_length (g : GenCtx) (cells : List (ℕ × ℕ)) (i n : ℕ) :
    (buildChips g cells i n).length = cells.length := by
  induction cells generalizing i n with
  | nil => rfl
  | cons rc rest ih => simp [buildChips, ih]

lemma buildChips_getElem (g : GenCtx) (cells : List (ℕ × ℕ)) (i n j : ℕ)
    (hj : j < (buildChips g cells i n).length) (hj2 : j < cells.length) :
    (buildChips g cells i n).get ⟨j, hj⟩ =
      mkChip g (cells.get ⟨j, hj2⟩) (i + j)
        (n + (cells.take j).countP (fun rc => cellInside g rc)) := by
  induction cells generalizing i n j with
  | nil => exact absurd hj2 (by simp)
  | cons rc rest ih =>
    cases j with
    | zero => simp [buildChips]
    | succ j =>
      have hj' : j < (buildChips g rest (i + 1)
          (if cellInside g rc then n + 1 else n)).length := by
        simpa [buildChips] using hj
      have hj2' : j < rest.length := by simpa using hj2
      have := ih (i + 1) (if cellInside g rc then n + 1 else n) j hj' hj2'
      simp only [buildChips, List.get_cons_succ, this, List.take_succ_cons,
        List.countP_cons]
      congr 1
      · omega
      · by_cases h : cellInside g rc
        · simp [h]
          omega
        · simp [h]

lemma mem_buildChips (g : GenCtx) (cells : List (ℕ × ℕ)) (i n : ℕ) (c : Chip)
    (hc : c ∈ buildChips g cells i n) :
    ∃ rc ∈ cells, ∃ a b, c = mkChip g rc a b := by
  induction cells generalizing i n with
  | nil => simp [buildChips] at hc
  | cons rc rest ih =>
    rcases (by simpa [buildChips] using hc : c = mkChip g rc i n ∨
        c ∈ buildChips g rest (i + 1) (if cellInside g rc then n + 1 else n)) with h | h
    · exact ⟨rc, by simp, i, n, h⟩
    · obtain ⟨rc', hmem, a, b, hab⟩ := ih _ _ h
      exact ⟨rc', by simp [hmem], a, b, hab⟩

lemma buildChips_map_id (g : GenCtx) (cells : List (ℕ × ℕ)) (i n : ℕ) :
    (buildChips g cells i n).map (·.id) = List.range' i cells.length := by
  induction cells generalizing i n with
  | nil => rfl
  | cons rc rest ih => simp [buildChips, List.range'_succ, ih]

lemma nodup_buildChips_id (g : GenCtx) (cells : List (ℕ × ℕ)) (i n : ℕ) :
    ((buildChips g cells i n).map (·.id)).Nodup := by
  rw [buildChips_map_id]
  exact List.nodup_range' i cells.length

lemma filter_buildChips_number (g : GenCtx) (cells : List (ℕ × ℕ)) (i n j : ℕ)
    (hj : j < ((buildChips g cells i n).filter (·.inside)).length) :
    (((buildChips g cells i n).filter (·.inside)).get ⟨j, hj⟩).number = some (n + j) := by
  induction cells generalizing i n j with
  | nil => exact absurd hj (by simp [buildChips])
  | cons rc rest ih =>
    by_cases h : cellInside g rc
    · have hfil : (buildChips g (rc :: rest) i n).filter (·.inside) =
          mkChip g rc i n :: (buildChips g rest (i + 1) (n + 1)).filter (·.inside) := by
        simp [buildChips, h]
      cases j with
      | zero => simp [hfil, mkChip_number, h]
      | succ j =>
        have hj' : j < ((buildChips g rest (i + 1) (n + 1)).filter (·.inside)).length := by
          rw [hfil] at hj; simpa using hj
        have := ih (i + 1) (n + 1) j hj'
        have hval : (((buildChips g (rc :: rest) i n).filter (·.inside)).get ⟨j + 1, hj⟩) =
            (((buildChips g rest (i + 1) (n + 1)).filter (·.inside)).get ⟨j, hj'⟩) := by
          simp [hfil]
        rw [hval, this]
        congr 1
        omega
    · have hfil : (buildChips g (rc :: rest) i n).filter (·.inside) =
          (buildChips g rest (i + 1) n).filter (·.inside) := by
        simp [buildChips, h]
      have hj' : j < ((buildChips g rest (i + 1) n).filter (·.inside)).length := by
        rw [hfil] at hj; exact hj
      have := ih (i + 1) n j hj'
      have hval : (((buildChips g (rc :: rest) i n).filter (·.inside)).get ⟨j, hj⟩) =
          (((buildChips g rest (i + 1) n).filter (·.inside)).get ⟨j, hj'⟩) := by
        simp [hfil]
      rw [hval, this]

@[simp] lemma gridCells_zero_cols (R : ℕ) : gridCells R 0 = [] := by
  unfold gridCells
  induction R with
  | zero => rfl
  | succ R ih => simp_all [List.range_succ]

lemma gridCells_eq_map (R C : ℕ) (hC : 0 < C) :
    gridCells R C = (List.range (R * C)).map fun j => (j / C, j % C) := by
  induction R with
  | zero => simp [gridCells]
  | succ R ih =>
    unfold gridCells at ih ⊢
    rw [List.range_succ, List.flatMap_append, ih, Nat.succ_mul, List.range_add,
      List.map_append, List.map_map]
    congr 1
    simp only [List.flatMap_cons, List.flatMap_nil, List.append_nil]
    refine List.map_congr_left ?_
    intro k hk
    have hk' : k < C := List.mem_range.mp hk
    simp only [Function.comp_apply]
    rw [Nat.add_comm (R * C) k]
    have h1 : (k + R * C) / C = R := by
      rw [Nat.add_mul_div_right _ _ hC, Nat.div_eq_of_lt hk', Nat.zero_add]
    have h2 : (k + R * C) % C = k := by
      rw [Nat.add_mul_mod_self_right, Nat.mod_eq_of_lt hk']
    rw [h1, h2]

@[simp] lemma gridCells_length (R C : ℕ) : (gridCells R C).length = R * C := by
  rcases Nat.eq_zero_or_pos C with hC | hC
  · simp [hC]
  · rw [gridCells_eq_map R C hC, List.length_map, List.length_range]

lemma gridCells_get (R C : ℕ) (hC : 0 < C) (j : ℕ) (hj : j < (gridCells R C).length) :
    (gridCells R C).get ⟨j, hj⟩ = (j / C, j % C) := by
  have hj' : j < R * C := by simpa using hj
  simp [gridCells_eq_map R C hC, List.get_eq_getElem]

lemma nat_div_mod_lex (C a b : ℕ) (_hC : 0 < C) (hab : a < b) :
    a / C < b / C ∨ (a / C = b / C ∧ a % C < b % C) := by
  by_cases h : a / C = b / C
  · right
    refine ⟨h, ?_⟩
    have ha := Nat.div_add_mod a C
    have hb := Nat.div_add_mod b C
    rw [h] at ha
    omega
  · left
    exact lt_of_le_of_ne (Nat.div_le_div_right (Nat.le_of_lt hab)) h

lemma chipLT_imp_chipLE (a b : Chip) (h : chipLT a b) : chipLE a b := by
  rcases h with h | ⟨he, hx⟩
  · exact Or.inl h
  · exact Or.inr ⟨he, le_of_lt hx⟩

lemma pairwise_chipLT_buildChips (g : GenCtx) (R C i n : ℕ)
    (hw : 0 < g.chipWidth) (hh : 0 < g.chipHeight) :
    (buildChips g (gridCells R C) i n).Pairwise chipLT := by
  rcases Nat.eq_zero_or_pos C with hC | hC
  · subst hC; simp [buildChips]
  · rw [List.pairwise_iff_get]
    intro a b hab
    have hla : (a : ℕ) < (gridCells R C).length := by
      have := a.isLt; simpa using this
    have hlb : (b : ℕ) < (gridCells R C).length := by
      have := b.isLt; simpa using this
    rw [buildChips_getElem g _ i n a a.isLt hla, buildChips_getElem g _ i n b b.isLt hlb,
      gridCells_get R C hC a hla, gridCells_get R C hC b hlb]
    rcases nat_div_mod_lex C a b hC hab with hrow | ⟨hrow, hcol⟩
    · left
      simp only [mkChip_y, cellY]
      have hcast : (Nat.cast ((a : ℕ) / C) : ℚ) < Nat.cast ((b : ℕ) / C) := by
        exact_mod_cast hrow
      have := mul_lt_mul_of_pos_right hcast hh
      linarith
    · right
      constructor
      · simp only [mkChip_y, cellY, hrow]
      · simp only [mkChip_x, cellX]
        have hcast : (Nat.cast ((a : ℕ) % C) : ℚ) < Nat.cast ((b : ℕ) % C) := by
          exact_mod_cast hcol
        have := mul_lt_mul_of_pos_right hcast hw
        linarith

lemma sorted_filter_buildChips (g : GenCtx) (R C i n : ℕ)
    (hw : 0 < g.chipWidth) (hh : 0 < g.chipHeight) :
    List.Sorted chipLE ((buildChips g (gridCells R C) i n).filter (·.inside)) := by
  have hp := pairwise_chipLT_buildChips g R C i n hw hh
  have hsub := List.filter_sublist (l := buildChips g (gridCells R C) i n)
    (p := (·.inside))
  exact (hp.sublist hsub).imp (chipLT_imp_chipLE _ _)

lemma findIdx_get_of_nodup (l : List Chip) (hnd : (l.map (·.id)).Nodup) (j : ℕ)
    (hj : j < l.length) :
    l.findIdx (fun d => d.id == (l.get ⟨j, hj⟩).id) = j := by
  induction l generalizing j with
  | nil => exact absurd hj (by simp)
  | cons a rest ih =>
    rcases List.nodup_cons.mp hnd with ⟨hnotin, hnd'⟩
    cases j with
    | zero => simp [List.findIdx_cons]
    | succ j =>
      have hj' : j < rest.length := by simpa using hj
      have hne : (a.id == ((rest.get ⟨j, hj'⟩).id)) = false := by
        rw [beq_eq_false_iff_ne]
        intro hcontra
        have hmem : (rest.get ⟨j, hj'⟩).id ∈ rest.map (·.id) :=
          List.mem_map_of_mem (·.id) (rest.get_mem j hj')
        rw [← hcontra] at hmem
        exact hnotin hmem
      simp only [List.get_cons_succ, List.findIdx_cons, hne, cond_false]
      rw [ih hnd' j hj']

lemma find?_eq_get_of_first {α : Type} (l : List α) (p : α → Bool) (k : ℕ)
    (hk : k < l.length) (hpk : p (l.get ⟨k, hk⟩) = true)
    (hbefore : ∀ (j : ℕ) (hj : j < l.length), j < k → p (l.get ⟨j, hj⟩) = false) :
    l.find? p = some (l.get ⟨k, hk⟩) := by
  induction l generalizing k with
  | nil => exact absurd hk (by simp)
  | cons a rest ih =>
    cases k with
    | zero => simpa [List.find?_cons, hpk] using List.find?_cons_of_pos rest hpk
    | succ k =>
      have hpa : p a = false := hbefore 0 (by simp) (Nat.succ_pos k)
      have hk' : k < rest.length := by simpa using hk
      rw [List.find?_cons_of_neg _ (by simp [hpa])]
      exact ih k hk' (by simpa using hpk)
        (fun j hj hjk => hbefore (j + 1) (by simpa using hj) (by omega))

lemma renumber_firstPass_chip (wp : WaferParams) (cw ch c s : ℚ) (cmem : Chip)
    (hcm : cmem ∈ firstPass wp cw ch c s) :
    renumber ((firstPass wp cw ch c s).filter (·.inside)) cmem = cmem := by
  cases hin : cmem.inside with
  | false => exact renumber_of_not_inside _ _ hin
  | true =>
    have hFmem : cmem ∈ (firstPass wp cw ch c s).filter (·.inside) :=
      List.mem_filter.mpr ⟨hcm, by simp [hin]⟩
    obtain ⟨⟨jF, hjF⟩, hget⟩ := List.mem_iff_get.mp hFmem
    have hnum : cmem.number = some (1 + jF) := by
      rw [← hget]
      exact filter_buildChips_number _ _ 0 1 jF hjF
    have hnodupF : (((firstPass wp cw ch c s).filter (·.inside)).map (·.id)).Nodup := by
      have hsub : List.Sublist (((firstPass wp cw ch c s).filter (·.inside)).map (·.id))
          ((firstPass wp cw ch c s).map (·.id)) :=
        (List.filter_sublist _).map _
      exact (nodup_buildChips_id _ _ 0 1).sublist hsub
    have hfind : ((firstPass wp cw ch c s).filter (·.inside)).findIdx
        (fun d => d.id == cmem.id) = jF := by
      rw [← hget]
      exact findIdx_get_of_nodup _ hnodupF jF hjF
    have hnum' : some (jF + 1) = cmem.number := by rw [hnum, Nat.add_comm]
    unfold renumber
    simp only [hin, if_true, hfind, hnum']
    rw [← hin]

lemma generateChipGrid_eq_firstPass (wp : WaferParams) (cw ch c s : ℚ)
    (hw : 0 < cw) (hh : 0 < ch) :
    generateChipGrid wp cw ch c s = firstPass wp cw ch c s := by
  have hsorted : List.Sorted chipLE ((firstPass wp cw ch c s).filter (·.inside)) :=
    sorted_filter_buildChips (genCtx wp cw ch c s) _ _ 0 1 hw hh
  show List.map
      (renumber (List.insertionSort chipLE
        (List.filter (fun x => x.inside) (firstPass wp cw ch c s))))
      (firstPass wp cw ch c s) = firstPass wp cw ch c s
  rw [hsorted.insertionSort_eq]
  have hkey : ∀ cmem ∈ firstPass wp cw ch c s,
      renumber ((firstPass wp cw ch c s).filter (·.inside)) cmem = id cmem :=
    fun cmem hcm => renumber_firstPass_chip wp cw ch c s cmem hcm
  rw [List.map_congr_left hkey, List.map_id]

@[simp] lemma generateChipGrid_length (wp : WaferParams) (cw ch c s : ℚ) :
    (generateChipGrid wp cw ch c s).length =
      (numRowsOf wp ch).toNat * (numColsOf wp cw).toNat := by
  unfold generateChipGrid firstPass
  simp

lemma generateChipGrid_get (wp : WaferParams) (cw ch c s : ℚ)
    (hw : 0 < cw) (hh : 0 < ch) (j : ℕ)
    (hj : j < (generateChipGrid wp cw ch c s).length) :
    (generateChipGrid wp cw ch c s).get ⟨j, hj⟩ =
      mkChip (genCtx wp cw ch c s)
        (j / (numColsOf wp cw).toNat, j % (numColsOf wp cw).toNat) j
        (1 + ((gridCells (numRowsOf wp ch).toNat (numColsOf wp cw).toNat).take j).countP
          (fun rc => cellInside (genCtx wp cw ch c s) rc)) := by
  have heq := generateChipGrid_eq_firstPass wp cw ch c s hw hh
  have hlen : j < (gridCells (numRowsOf wp ch).toNat (numColsOf wp cw).toNat).length := by
    have := hj
    rw [generateChipGrid_length] at this
    simpa using this
  have hC : 0 < (numColsOf wp cw).toNat := by
    rcases Nat.eq_zero_or_pos (numColsOf wp cw).toNat with h0 | hpos
    · rw [generateChipGrid_length, h0, Nat.mul_zero] at hj
      exact absurd hj (Nat.not_lt_zero j)
    · exact hpos
  have hgoal := List.get_of_eq heq ⟨j, hj⟩
  rw [hgoal]
  unfold firstPass
  rw [buildChips_getElem _ _ 0 1 j (by simpa using hlen) hlen,
    gridCells_get _ _ hC j hlen, Nat.zero_add]

lemma mem_generateChipGrid_fields (wp : WaferParams) (cw ch c s : ℚ) (cmem : Chip)
    (hc : cmem ∈ generateChipGrid wp cw ch c s) :
    cmem.width = cw ∧ cmem.height = ch ∧ cmem.color = "#ffffff" ∧ cmem.label = "" ∧
      cmem.inside = isChipInsideWafer cmem.x cmem.y cw ch
        (wp.diameter / 2 - wp.excludedRadius) (getFlatCutoff (wp.diameter / 2) c s) ∧
      (cmem.inside = false → cmem.number = none) := by
  unfold generateChipGrid at hc
  obtain ⟨t, ht, hmap⟩ := List.mem_map.mp hc
  obtain ⟨rc, _hrc, a, b, hab⟩ := mem_buildChips _ _ 0 1 t ht
  subst hmap
  subst hab
  refine ⟨by simp [genCtx], by simp [genCtx], by simp, by simp, ?_, ?_⟩
  · simp only [renumber_inside, renumber_x, renumber_y, mkChip_inside, mkChip_x, mkChip_y]
    unfold cellInside
    rfl
  · intro hin
    simp only [renumber_inside, mkChip_inside] at hin
    rw [renumber_of_not_inside _ _ (by simp [hin]), mkChip_number, hin]
    simp

lemma cornerInCircle_iff_sqrt (cx cy r : ℚ) :
    cornerInCircle cx cy r = true ↔
      Real.sqrt ((cx : ℝ) ^ 2 + (cy : ℝ) ^ 2) ≤ (r : ℝ) := by
  unfold cornerInCircle
  rw [Bool.and_eq_true, decide_eq_true_eq, decide_eq_true_eq]
  constructor
  · rintro ⟨h0, hle⟩
    have h0R : (0 : ℝ) ≤ (r : ℝ) := by exact_mod_cast h0
    have hleR : (cx : ℝ) ^ 2 + (cy : ℝ) ^ 2 ≤ (r : ℝ) ^ 2 := by
      have hcast : ((cx * cx + cy * cy : ℚ) : ℝ) ≤ ((r * r : ℚ) : ℝ) := by
        exact_mod_cast hle
      push_cast at hcast
      nlinarith [hcast]
    calc Real.sqrt ((cx : ℝ) ^ 2 + (cy : ℝ) ^ 2)
        ≤ Real.sqrt ((r : ℝ) ^ 2) := Real.sqrt_le_sqrt hleR
      _ = (r : ℝ) := Real.sqrt_sq h0R
  · intro hle
    have h0R : (0 : ℝ) ≤ (r : ℝ) := le_trans (Real.sqrt_nonneg _) hle
    refine ⟨by exact_mod_cast h0R, ?_⟩
    have hnn : (0 : ℝ) ≤ (cx : ℝ) ^ 2 + (cy : ℝ) ^ 2 := by positivity
    have hsq := Real.sq_sqrt hnn
    have hs0 := Real.sqrt_nonneg ((cx : ℝ) ^ 2 + (cy : ℝ) ^ 2)
    have hfin : ((cx * cx + cy * cy : ℚ) : ℝ) ≤ ((r * r : ℚ) : ℝ) := by
      push_cast
      nlinarith [hle, hsq, hs0]
    exact_mod_cast hfin

lemma cornerInFlatRegion_iff (cx cy : ℚ) (fp : FlatParams) :
    cornerInFlatRegion cx cy fp = true ↔ (cx < fp.xCutoff ∧ |cy| < fp.yMax) := by
  unfold cornerInFlatRegion
  rw [Bool.and_eq_true, decide_eq_true_eq, decide_eq_true_eq]

lemma isChipInsideWafer_iff (x y w h ur : ℚ) (fp : FlatParams) :
    isChipInsideWafer x y w h ur fp = true ↔
      ∀ p ∈ chipCorners x y w h, cornerAdmissible ur fp.xCutoff fp.yMax p := by
  unfold isChipInsideWafer
  rw [List.all_eq_true]
  refine forall_congr' fun p => ?_
  refine imp_congr Iff.rfl ?_
  rw [Bool.and_eq_true, Bool.not_eq_true']
  unfold cornerAdmissible
  rw [cornerInCircle_iff_sqrt]
  refine and_congr Iff.rfl ?_
  exact Bool.eq_false_iff.trans (not_congr (cornerInFlatRegion_iff p.1 p.2 fp))

lemma isChipInsideWafer_false_of_nonpos (x y w h ur : ℚ) (fp : FlatParams)
    (hur : ur ≤ 0) (hw : 0 < w) :
    isChipInsideWafer x y w h ur fp = false := by
  rcases Bool.eq_false_or_eq_true (isChipInsideWafer x y w h ur fp) with hb | hb
  swap
  · exact hb
  exfalso
  unfold isChipInsideWafer at hb
  rw [List.all_eq_true] at hb
  have h1 := hb (x, y) (by simp [chipCorners])
  have h2 := hb (x + w, y) (by simp [chipCorners])
  rw [Bool.and_eq_true] at h1 h2
  have hc1 := h1.1
  have hc2 := h2.1
  unfold cornerInCircle at hc1 hc2
  rw [Bool.and_eq_true, decide_eq_true_eq, decide_eq_true_eq] at hc1 hc2
  have hur0 : ur = 0 := le_antisymm hur hc1.1
  subst hur0
  have hq1 : x * x + y * y ≤ 0 := by simpa using hc1.2
  have hq2 : (x + w) * (x + w) + y * y ≤ 0 := by simpa using hc2.2
  have hx0 : x = 0 :=
    mul_self_eq_zero.mp (le_antisymm (by nlinarith [mul_self_nonneg y]) (mul_self_nonneg x))
  have hxw0 : x + w = 0 :=
    mul_self_eq_zero.mp
      (le_antisymm (by nlinarith [mul_self_nonneg y]) (mul_self_nonneg (x + w)))
  rw [hx0] at hxw0
  rw [Rat.zero_add] at hxw0
  exact absurd hxw0 (ne_of_gt hw)

lemma generateChipGrid_eq_nil_of_cols_zero (wp : WaferParams) (cw ch c s : ℚ)
    (h : (numColsOf wp cw).toNat = 0) : generateChipGrid wp cw ch c s = [] := by
  unfold generateChipGrid firstPass
  rw [h, gridCells_zero_cols]
  rfl

/-- C1: for every wafer with positive diameter and chip with positive width
and height, generateChipGrid marks a chip inside = true iff all four of its
corners (bottom-left, bottom-right, top-left, top-right) lie at distance at
most usableRadius = diameterMm/2 - excludedRadiusMm from the origin and avoid
the flat cutoff region, whose parameters xCutoff = -waferRadius * cosHalf and
yMax = waferRadius * sinHalf use the full wafer radius diameterMm/2; any
failing corner makes the chip inside = false. -/
theorem chip_inside_iff_corners (wp : WaferParams) (cw ch cosHalf sinHalf : ℚ)
    (_hd : 0 < wp.diameter) (_hw : 0 < cw) (_hh : 0 < ch) :
    ∀ cmem ∈ generateChipGrid wp cw ch cosHalf sinHalf,
      (cmem.inside = true ↔
        ∀ p ∈ chipCorners cmem.x cmem.y cw ch,
          cornerAdmissible (wp.diameter / 2 - wp.excludedRadius)
            (-(wp.diameter / 2) * cosHalf) ((wp.diameter / 2) * sinHalf) p) := by
  intro cmem hcm
  obtain ⟨-, -, -, -, hins, -⟩ :=
    mem_generateChipGrid_fields wp cw ch cosHalf sinHalf cmem hcm
  rw [hins, isChipInsideWafer_iff]
  rfl

/-- Witness for C1 at diameter 40, no flat, no exclusion, 10 by 12 chips. -/
theorem chip_inside_iff_corners_witness :
    (0 : ℚ) < (40 : ℚ) ∧ (0 : ℚ) < (10 : ℚ) ∧ (0 : ℚ) < (12 : ℚ) ∧
      ∀ cmem ∈ generateChipGrid ⟨40, 0, 0⟩ 10 12 1 0,
        (cmem.inside = true ↔
          ∀ p ∈ chipCorners cmem.x cmem.y 10 12,
            cornerAdmissible ((40 : ℚ) / 2 - 0) (-((40 : ℚ) / 2) * 1) (((40 : ℚ) / 2) * 0) p) :=
  ⟨by norm_num, by norm_num, by norm_num,
    chip_inside_iff_corners ⟨40, 0, 0⟩ 10 12 1 0 (by norm_num) (by norm_num) (by norm_num)⟩

/-- C4: the claim that generation fails fast on nonpositive chip dimensions
is violated by the code — with chipWidth = -5 the column count
ceil(100 / -5) + 2 = -18 is nonpositive, the loops run zero times, and
generateChipGrid silently returns an empty chip list instead of reporting a
failure (and with chipWidth = 0 the JavaScript column count is Infinity and
the generation loop never terminates). -/
theorem negative_chip_width_silent_empty :
    generateChipGrid ⟨100, 0, 0⟩ (-5) 12 1 0 = [] ∧
      numColsOf ⟨100, 0, 0⟩ (-5) = -18 := by
  have hcols : numColsOf ⟨100, 0, 0⟩ (-5) = -18 := by
    show (⌈(100 : ℚ) / (-5)⌉ + 2 : ℤ) = -18
    rw [show ((100 : ℚ) / (-5)) = ((-20 : ℤ) : ℚ) by norm_num, Int.ceil_intCast]
    norm_num
  refine ⟨?_, hcols⟩
  refine generateChipGrid_eq_nil_of_cols_zero _ _ _ _ _ ?_
  rw [hcols]
  rfl

/-- C7: when usableRadius = diameterMm/2 - excludedRadiusMm ≤ 0 and the chip
dimensions are positive, generateChipGrid still succeeds, returning the full
rows * cols grid, and every chip has inside = false and number = null. -/
theorem over_excluded_all_outside (wp : WaferParams) (cw ch cosHalf sinHalf : ℚ)
    (hur : wp.diameter / 2 - wp.excludedRadius ≤ 0) (hw : 0 < cw) (_hh : 0 < ch) :
    (generateChipGrid wp cw ch cosHalf sinHalf).length =
      (numRowsOf wp ch).toNat * (numColsOf wp cw).toNat ∧
    ∀ cmem ∈ generateChipGrid wp cw ch cosHalf sinHalf,
      cmem.inside = false ∧ cmem.number = none := by
  refine ⟨generateChipGrid_length wp cw ch cosHalf sinHalf, fun cmem hcm => ?_⟩
  obtain ⟨-, -, -, -, hins, hnum⟩ :=
    mem_generateChipGrid_fields wp cw ch cosHalf sinHalf cmem hcm
  have hfalse : cmem.inside = false := by
    rw [hins]
    exact isChipInsideWafer_false_of_nonpos _ _ _ _ _ _ hur hw
  exact ⟨hfalse, hnum hfalse⟩

lemma numColsOf_pos (wp : WaferParams) (cw : ℚ) (hd : 0 < wp.diameter) (hw : 0 < cw) :
    0 < numColsOf wp cw := by
  unfold numColsOf
  have hq : (0 : ℚ) < wp.diameter / cw := div_pos hd hw
  have := Int.ceil_pos.mpr hq
  omega

lemma numRowsOf_pos (wp : WaferParams) (ch : ℚ) (hd : 0 < wp.diameter) (hh : 0 < ch) :
    0 < numRowsOf wp ch := by
  unfold numRowsOf
  have hq : (0 : ℚ) < wp.diameter / ch := div_pos hd hh
  have := Int.ceil_pos.mpr hq
  omega

/-- C8: for positive diameter and chip dimensions, generateChipGrid returns
exactly rows * cols chips with cols = ceil(diameterMm/chipWidth) + 2 and
rows = ceil(diameterMm/chipHeight) + 2; the chip at scan position (row, col)
sits at list index row * cols + col, has id equal to that index (consecutive
ids 0, 1, 2, ... in row-major scan order), and has bottom-left corner
(xStart + col * chipWidth, yStart + row * chipHeight) with
xStart = -(cols * chipWidth)/2 and yStart = -(rows * chipHeight)/2. -/
theorem grid_layout (wp : WaferParams) (cw ch cosHalf sinHalf : ℚ)
    (hd : 0 < wp.diameter) (hw : 0 < cw) (hh : 0 < ch) :
    numColsOf wp cw = ⌈wp.diameter / cw⌉ + 2 ∧
    numRowsOf wp ch = ⌈wp.diameter / ch⌉ + 2 ∧
    (generateChipGrid wp cw ch cosHalf sinHalf).length =
      (numRowsOf wp ch).toNat * (numColsOf wp cw).toNat ∧
    ∀ (row col : ℕ), row < (numRowsOf wp ch).toNat → col < (numColsOf wp cw).toNat →
      ∀ hk : row * (numColsOf wp cw).toNat + col <
          (generateChipGrid wp cw ch cosHalf sinHalf).length,
        ((generateChipGrid wp cw ch cosHalf sinHalf).get
            ⟨row * (numColsOf wp cw).toNat + col, hk⟩).id =
            row * (numColsOf wp cw).toNat + col ∧
          ((generateChipGrid wp cw ch cosHalf sinHalf).get
              ⟨row * (numColsOf wp cw).toNat + col, hk⟩).x =
            -((((numColsOf wp cw).toNat : ℚ)) * cw) / 2 + (col : ℚ) * cw ∧
          ((generateChipGrid wp cw ch cosHalf sinHalf).get
              ⟨row * (numColsOf wp cw).toNat + col, hk⟩).y =
            -((((numRowsOf wp ch).toNat : ℚ)) * ch) / 2 + (row : ℚ) * ch := by
  refine ⟨rfl, rfl, generateChipGrid_length wp cw ch cosHalf sinHalf, ?_⟩
  intro row col hrow hcol hk
  have hC : 0 < (numColsOf wp cw).toNat := lt_of_le_of_lt (Nat.zero_le col) hcol
  have hdiv : (row * (numColsOf wp cw).toNat + col) / (numColsOf wp cw).toNat = row := by
    rw [Nat.mul_comm row ((numColsOf wp cw).toNat), Nat.mul_add_div hC,
      Nat.div_eq_of_lt hcol, Nat.add_zero]
  have hmod : (row * (numColsOf wp cw).toNat + col) % (numColsOf wp cw).toNat = col := by
    rw [Nat.mul_comm row ((numColsOf wp cw).toNat), Nat.mul_add_mod]
    exact Nat.mod_eq_of_lt hcol
  rw [generateChipGrid_get wp cw ch cosHalf sinHalf hw hh _ hk, hdiv, hmod]
  have hcastC : (((numColsOf wp cw).toNat : ℚ)) = ((numColsOf wp cw : ℤ) : ℚ) := by
    have := Int.toNat_of_nonneg (le_of_lt (numColsOf_pos wp cw hd hw))
    exact_mod_cast congrArg (fun z : ℤ => (z : ℚ)) this
  have hcastR : (((numRowsOf wp ch).toNat : ℚ)) = ((numRowsOf wp ch : ℤ) : ℚ) := by
    have := Int.toNat_of_nonneg (le_of_lt (numRowsOf_pos wp ch hd hh))
    exact_mod_cast congrArg (fun z : ℤ => (z : ℚ)) this
  refine ⟨rfl, ?_, ?_⟩
  · simp only [mkChip_x, cellX, genCtx, hcastC]
  · simp only [mkChip_y, cellY, genCtx, hcastR]

/-- Witness for C8 at diameter 40, chips 10 by 12, flat disabled. -/
theorem grid_layout_witness :
    (0 : ℚ) < 40 ∧
      (numColsOf ⟨40, 0, 0⟩ 10 = ⌈(40 : ℚ) / 10⌉ + 2 ∧
        numRowsOf ⟨40, 0, 0⟩ 12 = ⌈(40 : ℚ) / 12⌉ + 2 ∧
        (generateChipGrid ⟨40, 0, 0⟩ 10 12 1 0).length =
          (numRowsOf ⟨40, 0, 0⟩ 12).toNat * (numColsOf ⟨40, 0, 0⟩ 10).toNat ∧
        ∀ (row col : ℕ), row < (numRowsOf ⟨40, 0, 0⟩ 12).toNat →
          col < (numColsOf ⟨40, 0, 0⟩ 10).toNat →
          ∀ hk : row * (numColsOf ⟨40, 0, 0⟩ 10).toNat + col <
              (generateChipGrid ⟨40, 0, 0⟩ 10 12 1 0).length,
            ((generateChipGrid ⟨40, 0, 0⟩ 10 12 1 0).get
                ⟨row * (numColsOf ⟨40, 0, 0⟩ 10).toNat + col, hk⟩).id =
                row * (numColsOf ⟨40, 0, 0⟩ 10).toNat + col ∧
              ((generateChipGrid ⟨40, 0, 0⟩ 10 12 1 0).get
                  ⟨row * (numColsOf ⟨40, 0, 0⟩ 10).toNat + col, hk⟩).x =
                -((((numColsOf ⟨40, 0, 0⟩ 10).toNat : ℚ)) * 10) / 2 + (col : ℚ) * 10 ∧
              ((generateChipGrid ⟨40, 0, 0⟩ 10 12 1 0).get
                  ⟨row * (numColsOf ⟨40, 0, 0⟩ 10).toNat + col, hk⟩).y =
                -((((numRowsOf ⟨40, 0, 0⟩ 12).toNat : ℚ)) * 12) / 2 + (row : ℚ) * 12) :=
  ⟨by norm_num, grid_layout ⟨40, 0, 0⟩ 10 12 1 0 (by norm_num) (by norm_num) (by norm_num)⟩

/-- C10: with positive chip dimensions, the second-pass renumbering of
generateChipGrid changes nothing — the returned list equals the first-pass
output, in which inside chips already carry their provisional row-major
sequential numbers, because the row-major scan visits inside chips in
exactly ascending (y, x) order. -/
theorem second_pass_identity (wp : WaferParams) (cw ch cosHalf sinHalf : ℚ)
    (hw : 0 < cw) (hh : 0 < ch) :
    generateChipGrid wp cw ch cosHalf sinHalf = firstPass wp cw ch cosHalf sinHalf :=
  generateChipGrid_eq_firstPass wp cw ch cosHalf sinHalf hw hh

/-- Witness for C10 at diameter 40, chips 10 by 12, flat disabled. -/
theorem second_pass_identity_witness :
    (0 : ℚ) < 10 ∧
      generateChipGrid ⟨40, 0, 0⟩ 10 12 1 0 = firstPass ⟨40, 0, 0⟩ 10 12 1 0 :=
  ⟨by norm_num, second_pass_identity ⟨40, 0, 0⟩ 10 12 1 0 (by norm_num) (by norm_num)⟩

/-- C2: sorting the inside chips of generateChipGrid by ascending y then
ascending x yields chips numbered exactly 1, 2, ..., N in that order (so
number is a bijection onto 1..N, monotonically non-decreasing under the
(y, x) sort key), and every chip with inside = false has number = null. -/
theorem numbering_bijection (wp : WaferParams) (cw ch cosHalf sinHalf : ℚ)
    (hw : 0 < cw) (hh : 0 < ch) :
    ((((generateChipGrid wp cw ch cosHalf sinHalf).filter (·.inside)).insertionSort
          chipLE).map (·.number) =
        (List.range ((generateChipGrid wp cw ch cosHalf sinHalf).filter
          (·.inside)).length).map (fun i => some (i + 1))) ∧
      ∀ cmem ∈ generateChipGrid wp cw ch cosHalf sinHalf,
        cmem.inside = false → cmem.number = none := by
  constructor
  · rw [generateChipGrid_eq_firstPass wp cw ch cosHalf sinHalf hw hh]
    unfold firstPass
    have hsorted : List.Sorted chipLE ((buildChips (genCtx wp cw ch cosHalf sinHalf)
        (gridCells (numRowsOf wp ch).toNat (numColsOf wp cw).toNat) 0 1).filter
          (·.inside)) :=
      sorted_filter_buildChips (genCtx wp cw ch cosHalf sinHalf) _ _ 0 1 hw hh
    rw [hsorted.insertionSort_eq]
    refine List.ext_getElem (by simp) ?_
    intro n h1 h2
    simp only [List.getElem_map, List.getElem_range]
    have hn : n < ((buildChips (genCtx wp cw ch cosHalf sinHalf)
        (gridCells (numRowsOf wp ch).toNat (numColsOf wp cw).toNat) 0 1).filter
          (·.inside)).length := by
      simpa using h1
    have hnum := filter_buildChips_number (genCtx wp cw ch cosHalf sinHalf)
      (gridCells (numRowsOf wp ch).toNat (numColsOf wp cw).toNat) 0 1 n hn
    rw [List.get_eq_getElem] at hnum
    rw [hnum, Nat.add_comm]
  · intro cmem hcm hin
    exact (mem_generateChipGrid_fields wp cw ch cosHalf sinHalf cmem hcm).2.2.2.2.2 hin

/-- Witness for C2 at diameter 40, chips 10 by 12, flat disabled. -/
theorem numbering_bijection_witness :
    (0 : ℚ) < 10 ∧
      (((((generateChipGrid ⟨40, 0, 0⟩ 10 12 1 0).filter (·.inside)).insertionSort
            chipLE).map (·.number) =
          (List.range ((generateChipGrid ⟨40, 0, 0⟩ 10 12 1 0).filter
            (·.inside)).length).map (fun i => some (i + 1))) ∧
        ∀ cmem ∈ generateChipGrid ⟨40, 0, 0⟩ 10 12 1 0,
          cmem.inside = false → cmem.number = none) :=
  ⟨by norm_num, numbering_bijection ⟨40, 0, 0⟩ 10 12 1 0 (by norm_num) (by norm_num)⟩

lemma isChipInsideWafer_eq_circle (x y w h ur : ℚ) (fp : FlatParams)
    (hy : fp.yMax ≤ 0) :
    isChipInsideWafer x y w h ur fp = isChipInsideCircle x y w h ur := by
  unfold isChipInsideWafer isChipInsideCircle
  congr 1
  funext p
  have hnot : ¬(|p.2| < fp.yMax) := not_lt.mpr (le_trans hy (abs_nonneg p.2))
  unfold cornerInFlatRegion
  rw [decide_eq_false hnot]
  simp

lemma buildChips_eq_circle (g : GenCtx) (hy : g.flat.yMax ≤ 0)
    (cells : List (ℕ × ℕ)) (i n : ℕ) :
    buildChips g cells i n = buildChipsCircle g cells i n := by
  induction cells generalizing i n with
  | nil => rfl
  | cons rc rest ih =>
    have hins : cellInside g rc =
        isChipInsideCircle (cellX g rc) (cellY g rc) g.chipWidth g.chipHeight
          g.usableRadius := by
      unfold cellInside
      exact isChipInsideWafer_eq_circle _ _ _ _ _ _ hy
    simp only [buildChips, buildChipsCircle, mkChip, hins, ih]

/-- C9: when flatAngleDeg = 0 — so the trigonometric parameters are
cos 0 = 1 and sin 0 = 0 — no flat test applies: generateChipGrid equals the
spec-modelled reference generator that performs only the circle test, and
each chip is classified by the circular bound alone. -/
theorem flat_angle_zero_circle_only (wp : WaferParams) (cw ch cosHalf sinHalf : ℚ)
    (h0 : wp.flatAngle = 0)
    (hc : (cosHalf : ℝ) = Real.cos ((wp.flatAngle : ℝ) * Real.pi / 180 / 2))
    (hs : (sinHalf : ℝ) = Real.sin ((wp.flatAngle : ℝ) * Real.pi / 180 / 2)) :
    generateChipGrid wp cw ch cosHalf sinHalf = generateChipGridCircleOnly wp cw ch ∧
      ∀ cmem ∈ generateChipGrid wp cw ch cosHalf sinHalf,
        cmem.inside = isChipInsideCircle cmem.x cmem.y cw ch
          (wp.diameter / 2 - wp.excludedRadius) := by
  have hcq : cosHalf = 1 := by
    rw [h0] at hc
    simp only [Rat.cast_zero, zero_mul, zero_div, Real.cos_zero] at hc
    exact_mod_cast hc
  have hsq : sinHalf = 0 := by
    rw [h0] at hs
    simp only [Rat.cast_zero, zero_mul, zero_div, Real.sin_zero] at hs
    exact_mod_cast hs
  subst hcq
  subst hsq
  have hy : (genCtx wp cw ch 1 0).flat.yMax ≤ 0 := by
    show wp.diameter / 2 * 0 ≤ 0
    rw [mul_zero]
  constructor
  · unfold generateChipGrid generateChipGridCircleOnly firstPass
    rw [buildChips_eq_circle (genCtx wp cw ch 1 0) hy]
  · intro cmem hcm
    obtain ⟨-, -, -, -, hins, -⟩ := mem_generateChipGrid_fields wp cw ch 1 0 cmem hcm
    rw [hins]
    exact isChipInsideWafer_eq_circle _ _ _ _ _ _ hy

/-- Witness for C9 at diameter 40, flat angle 0, chips 10 by 12. -/
theorem flat_angle_zero_circle_only_witness :
    ((1 : ℚ) : ℝ) = Real.cos ((((⟨40, 0, 0⟩ : WaferParams).flatAngle : ℝ)) * Real.pi / 180 / 2) ∧
      generateChipGrid ⟨40, 0, 0⟩ 10 12 1 0 = generateChipGridCircleOnly ⟨40, 0, 0⟩ 10 12 ∧
      ∀ cmem ∈ generateChipGrid ⟨40, 0, 0⟩ 10 12 1 0,
        cmem.inside = isChipInsideCircle cmem.x cmem.y 10 12
          ((40 : ℚ) / 2 - 0) := by
  have hc : ((1 : ℚ) : ℝ) =
      Real.cos ((((⟨40, 0, 0⟩ : WaferParams).flatAngle : ℝ)) * Real.pi / 180 / 2) := by
    show ((1 : ℚ) : ℝ) = Real.cos (((0 : ℚ) : ℝ) * Real.pi / 180 / 2)
    simp
  have hs : ((0 : ℚ) : ℝ) =
      Real.sin ((((⟨40, 0, 0⟩ : WaferParams).flatAngle : ℝ)) * Real.pi / 180 / 2) := by
    show ((0 : ℚ) : ℝ) = Real.sin (((0 : ℚ) : ℝ) * Real.pi / 180 / 2)
    simp
  exact ⟨hc, flat_angle_zero_circle_only ⟨40, 0, 0⟩ 10 12 1 0 rfl hc hs⟩

lemma matchesPos_iff (ic : SavedChip) (nc : Chip) :
    matchesPos ic nc = true ↔
      (|ic.x - nc.x| < 1 / 10 ∧ |ic.y - nc.y| < 1 / 10) := by
  unfold matchesPos
  rw [Bool.and_eq_true, decide_eq_true_eq, decide_eq_true_eq]

lemma applySaved_eq (m : SavedChip) (nc : Chip) :
    applySaved m nc = { nc with
      color := if truthyStr m.color then m.color.getD nc.color else nc.color
      label := if truthyStr m.label then m.label.getD nc.label else nc.label } := by
  unfold applySaved
  by_cases h1 : truthyStr m.color <;> by_cases h2 : truthyStr m.label <;> simp [h1, h2]

lemma reconcileChip_not_inside (imported : List SavedChip) (nc : Chip)
    (h : nc.inside = false) : reconcileChip imported nc = nc := by
  unfold reconcileChip
  rw [h]
  simp

lemma reconcileChip_inside (imported : List SavedChip) (nc : Chip)
    (h : nc.inside = true) :
    reconcileChip imported nc =
      match imported.find? (fun ic => matchesPos ic nc) with
      | some m => applySaved m nc
      | none => nc := by
  unfold reconcileChip
  rw [h]
  simp

/-- C3: reconciliation matches only inside new chips; each inside new chip is
matched to the first saved chip in saved-list order within both 0.1 mm
tolerances; on a match, color is copied when truthy and label is copied when
truthy, everything else is kept; with no saved chip in tolerance the new chip
keeps its generation values; with several saved chips in tolerance the
earliest in saved-list order wins; outside chips pass through unchanged. -/
theorem reconcile_policy (imported : List SavedChip) (newChips : List Chip) :
    (reconcile imported newChips).length = newChips.length ∧
    ∀ (i : ℕ) (hi : i < newChips.length) (hi2 : i < (reconcile imported newChips).length),
      ((newChips.get ⟨i, hi⟩).inside = false →
        (reconcile imported newChips).get ⟨i, hi2⟩ = newChips.get ⟨i, hi⟩) ∧
      ((newChips.get ⟨i, hi⟩).inside = true →
        ((∀ ic ∈ imported,
            ¬(|ic.x - (newChips.get ⟨i, hi⟩).x| < 1 / 10 ∧
              |ic.y - (newChips.get ⟨i, hi⟩).y| < 1 / 10)) →
          (reconcile imported newChips).get ⟨i, hi2⟩ = newChips.get ⟨i, hi⟩) ∧
        ∀ (k : ℕ) (hk : k < imported.length),
          (|(imported.get ⟨k, hk⟩).x - (newChips.get ⟨i, hi⟩).x| < 1 / 10 ∧
            |(imported.get ⟨k, hk⟩).y - (newChips.get ⟨i, hi⟩).y| < 1 / 10) →
          (∀ (j : ℕ) (hj : j < imported.length), j < k →
            ¬(|(imported.get ⟨j, hj⟩).x - (newChips.get ⟨i, hi⟩).x| < 1 / 10 ∧
              |(imported.get ⟨j, hj⟩).y - (newChips.get ⟨i, hi⟩).y| < 1 / 10)) →
          (reconcile imported newChips).get ⟨i, hi2⟩ =
            { newChips.get ⟨i, hi⟩ with
              color := if truthyStr (imported.get ⟨k, hk⟩).color then
                  (imported.get ⟨k, hk⟩).color.getD (newChips.get ⟨i, hi⟩).color
                else (newChips.get ⟨i, hi⟩).color
              label := if truthyStr (imported.get ⟨k, hk⟩).label then
                  (imported.get ⟨k, hk⟩).label.getD (newChips.get ⟨i, hi⟩).label
                else (newChips.get ⟨i, hi⟩).label }) := by
  refine ⟨by simp [reconcile], ?_⟩
  intro i hi hi2
  have hmap : (reconcile imported newChips).get ⟨i, hi2⟩ =
      reconcileChip imported (newChips.get ⟨i, hi⟩) := by
    unfold reconcile
    simp [List.get_eq_getElem]
  constructor
  · intro hfalse
    rw [hmap]
    exact reconcileChip_not_inside imported _ hfalse
  · intro htrue
    constructor
    · intro hnone
      rw [hmap, reconcileChip_inside imported _ htrue]
      have hfind : imported.find? (fun ic => matchesPos ic (newChips.get ⟨i, hi⟩)) =
          none := by
        rw [List.find?_eq_none]
        intro ic hic
        intro hmat
        exact hnone ic hic ((matchesPos_iff ic (newChips.get ⟨i, hi⟩)).mp hmat)
      rw [hfind]
    · intro k hk htol hbefore
      rw [hmap, reconcileChip_inside imported _ htrue]
      have hfind : imported.find? (fun ic => matchesPos ic (newChips.get ⟨i, hi⟩)) =
          some (imported.get ⟨k, hk⟩) := by
        refine find?_eq_get_of_first imported _ k hk
          ((matchesPos_iff _ _).mpr htol) ?_
        intro j hj hjk
        exact Bool.eq_false_iff.mpr fun hmat =>
          hbefore j hj hjk ((matchesPos_iff _ _).mp hmat)
      rw [hfind]
      exact applySaved_eq _ _

/-- Witness for C3: one saved chip at the same position as the single inside
new chip; the truthy color and label are copied onto it. -/
theorem reconcile_policy_witness :
    (reconcile [{ x := 5, y := 5, color := some "#ff0000", label := some "A" }]
        [{ id := 0, x := 5, y := 5, width := 10, height := 12, inside := true,
           color := "#ffffff", label := "", number := some 1 }]).get
        ⟨0, by simp [reconcile]⟩ =
      { id := 0, x := 5, y := 5, width := 10, height := 12, inside := true,
        color := "#ff0000", label := "A", number := some 1 } := by
  have h := (reconcile_policy
    [{ x := 5, y := 5, color := some "#ff0000", label := some "A" }]
    [{ id := 0, x := 5, y := 5, width := 10, height := 12, inside := true,
       color := "#ffffff", label := "", number := some 1 }]).2 0 (by simp)
    (by simp [reconcile])
  have h2 := (h.2 rfl).2 0 (by simp)
    (by constructor <;> norm_num)
    (fun j hj hlt => absurd hlt (by omega))
  rw [h2]
  with_unfolding_all decide

lemma load_none_eq (cosHalf sinHalf : ℚ) (st : AppState) :
    load cosHalf sinHalf st none = (false, st) := rfl

lemma load_nonArray_eq (cosHalf sinHalf : ℚ) (st : AppState) (doc : ParsedDoc)
    (h1 : doc.chips = ChipsField.nonArray)
    (h2 : (regenChips cosHalf sinHalf (applyDocParams st doc)).any (·.inside) = true) :
    load cosHalf sinHalf st (some doc) = (false, applyDocParams st doc) := by
  obtain ⟨wpf, cpf, chf⟩ := doc
  cases chf with
  | absent => exact ChipsField.noConfusion h1
  | array l => exact ChipsField.noConfusion h1
  | nonArray =>
    simp only [load, h2]
    simp

lemma load_absent_eq (cosHalf sinHalf : ℚ) (st : AppState) (doc : ParsedDoc)
    (h1 : doc.chips = ChipsField.absent) :
    load cosHalf sinHalf st (some doc) =
      (true, { applyDocParams st doc with
        chips := reconcile [] (regenChips cosHalf sinHalf (applyDocParams st doc)) }) := by
  obtain ⟨wpf, cpf, chf⟩ := doc
  cases chf with
  | absent => rfl
  | array l => exact ChipsField.noConfusion h1
  | nonArray => exact ChipsField.noConfusion h1

lemma cols40 : numColsOf ⟨40, 0, 0⟩ 10 = 6 := by
  show (⌈(40 : ℚ) / 10⌉ + 2 : ℤ) = 6
  rw [show ((40 : ℚ) / 10) = ((4 : ℤ) : ℚ) by norm_num, Int.ceil_intCast]
  norm_num

lemma rows40 : numRowsOf ⟨40, 0, 0⟩ 12 = 6 := by
  show (⌈(40 : ℚ) / 12⌉ + 2 : ℤ) = 6
  have hceil : (⌈(40 : ℚ) / 12⌉ : ℤ) = 4 := by
    rw [Int.ceil_eq_iff]
    constructor <;> norm_num
  rw [hceil]
  norm_num

lemma applyDocParams_badChipsDoc :
    applyDocParams defaultState badChipsDoc =
      { waferParams := { diameter := 40, flatAngle := 0, excludedRadius := 0, name := "" }
        chipParams := { width := 10, height := 12, labelFontSize := 9 / 50 }
        chips := [] } := by
  with_unfolding_all decide

lemma regen_badChipsDoc_any_inside :
    (regenChips 1 0 (applyDocParams defaultState badChipsDoc)).any (·.inside) = true := by
  rw [applyDocParams_badChipsDoc]
  show (generateChipGrid ⟨40, 0, 0⟩ 10 12 1 0).any (·.inside) = true
  unfold generateChipGrid firstPass genCtx
  rw [cols40, rows40]
  with_unfolding_all decide

/-- C5 (amended): if JSON.parse throws, load rejects with no state change at
all; if the document parses but its chips field is a truthy non-array and the
regenerated grid has an inside chip, load reports the failure synchronously
(returns false) and the previously active chip collection stays unchanged,
but the wafer/chip parameter updates applied before the failure persist; a
document with every expected field missing is not rejected — load succeeds. -/
theorem load_malformed (cosHalf sinHalf : ℚ) (st : AppState) (doc : ParsedDoc) :
    load cosHalf sinHalf st none = (false, st) ∧
    (doc.chips = ChipsField.nonArray →
      (regenChips cosHalf sinHalf (applyDocParams st doc)).any (·.inside) = true →
      (load cosHalf sinHalf st (some doc)).1 = false ∧
        (load cosHalf sinHalf st (some doc)).2.chips = st.chips ∧
        (load cosHalf sinHalf st (some doc)).2.waferParams =
          (applyDocParams st doc).waferParams) ∧
    (doc.waferParams = none → doc.chipParams = none → doc.chips = ChipsField.absent →
      (load cosHalf sinHalf st (some doc)).1 = true) := by
  refine ⟨load_none_eq cosHalf sinHalf st, ?_, ?_⟩
  · intro h1 h2
    have hload := load_nonArray_eq cosHalf sinHalf st doc h1 h2
    rw [hload]
    exact ⟨rfl, rfl, rfl⟩
  · intro _ _ h3
    rw [load_absent_eq cosHalf sinHalf st doc h3]

/-- Counterexample to C5 as stated: the document with chips = 5 (a truthy
non-array) and waferParams.diameter = 40 makes load report failure, yet the
previously active wafer parameters do not remain unchanged — the diameter has
already been overwritten; and the document with all fields missing is not
rejected at all. -/
theorem load_malformed_counterexample :
    (load 1 0 defaultState (some badChipsDoc)).1 = false ∧
      (load 1 0 defaultState (some badChipsDoc)).2.waferParams.diameter ≠
        defaultState.waferParams.diameter ∧
      (load 1 0 defaultState (some emptyDoc)).1 = true := by
  have hload := load_nonArray_eq 1 0 defaultState badChipsDoc rfl
    regen_badChipsDoc_any_inside
  refine ⟨by rw [hload], ?_, ?_⟩
  · rw [hload, applyDocParams_badChipsDoc]
    show (40 : ℚ) ≠ 508 / 5
    norm_num
  · rw [load_absent_eq 1 0 defaultState emptyDoc rfl]

/-- Witness for the amended C5 at the concrete malformed documents. -/
theorem load_malformed_witness :
    (load 1 0 defaultState none = (false, defaultState)) ∧
      (load 1 0 defaultState (some badChipsDoc)).1 = false ∧
      (load 1 0 defaultState (some badChipsDoc)).2.chips = defaultState.chips ∧
      (load 1 0 defaultState (some emptyDoc)).1 = true :=
  ⟨(load_malformed 1 0 defaultState badChipsDoc).1,
    ((load_malformed 1 0 defaultState badChipsDoc).2.1 rfl
      regen_badChipsDoc_any_inside).1,
    ((load_malformed 1 0 defaultState badChipsDoc).2.1 rfl
      regen_badChipsDoc_any_inside).2.1,
    (load_malformed 1 0 defaultState emptyDoc).2.2 rfl rfl rfl⟩

lemma geoEqChip_refl (c : Chip) : geoEqChip c c :=
  ⟨rfl, rfl, rfl, rfl, rfl, rfl, rfl⟩

lemma geoEqChip_symm (a b : Chip) (h : geoEqChip a b) : geoEqChip b a := by
  obtain ⟨h1, h2, h3, h4, h5, h6, h7⟩ := h
  exact ⟨h1.symm, h2.symm, h3.symm, h4.symm, h5.symm, h6.symm, h7.symm⟩

lemma geoEqChip_trans (a b c : Chip) (hab : geoEqChip a b) (hbc : geoEqChip b c) :
    geoEqChip a c := by
  obtain ⟨h1, h2, h3, h4, h5, h6, h7⟩ := hab
  obtain ⟨g1, g2, g3, g4, g5, g6, g7⟩ := hbc
  exact ⟨h1.trans g1, h2.trans g2, h3.trans g3, h4.trans g4, h5.trans g5,
    h6.trans g6, h7.trans g7⟩

lemma applySaved_geo (m : SavedChip) (nc : Chip) : geoEqChip (applySaved m nc) nc := by
  rw [applySaved_eq]
  exact ⟨rfl, rfl, rfl, rfl, rfl, rfl, rfl⟩

lemma reconcileChip_geo (imported : List SavedChip) (nc : Chip) :
    geoEqChip (reconcileChip imported nc) nc := by
  cases hin : nc.inside with
  | false => rw [reconcileChip_not_inside imported nc hin]; exact geoEqChip_refl nc
  | true =>
    rw [reconcileChip_inside imported nc hin]
    cases imported.find? (fun ic => matchesPos ic nc) with
    | none => exact geoEqChip_refl nc
    | some m => exact applySaved_geo m nc

lemma applySaved_export (e nc : Chip) (hc : e.color ≠ "") (hlabel : nc.label = "") :
    (applySaved (exportChip e) nc).color = e.color ∧
      (applySaved (exportChip e) nc).label = e.label := by
  rw [applySaved_eq]
  constructor
  · simp [exportChip, truthyStr, hc]
  · by_cases hl : e.label = ""
    · simp [exportChip, truthyStr, hl, hlabel]
    · simp [exportChip, truthyStr, hl]

lemma pitch_gap (a b : ℕ) (w t : ℚ) (hw : 0 < w) (hge : 1 / 10 ≤ w) (hne : a ≠ b)
    (hcon : |(t + (a : ℚ) * w) - (t + (b : ℚ) * w)| < 1 / 10) : False := by
  have hzne : ((a : ℤ)) ≠ (b : ℤ) := by exact_mod_cast hne
  have hz := Int.one_le_abs (sub_ne_zero.mpr hzne)
  have h1 : (1 : ℚ) ≤ |(a : ℚ) - (b : ℚ)| := by
    calc (1 : ℚ) = ((1 : ℤ) : ℚ) := by norm_num
      _ ≤ ((|(a : ℤ) - (b : ℤ)| : ℤ) : ℚ) := by exact_mod_cast hz
      _ = |(a : ℚ) - (b : ℚ)| := by push_cast; rfl
  have heq : (t + (a : ℚ) * w) - (t + (b : ℚ) * w) = ((a : ℚ) - (b : ℚ)) * w := by ring
  rw [heq, abs_mul, abs_of_pos hw] at hcon
  have hmul : 1 * w ≤ |(a : ℚ) - (b : ℚ)| * w :=
    mul_le_mul_of_nonneg_right h1 (le_of_lt hw)
  rw [one_mul] at hmul
  linarith

lemma grid_separation (wp : WaferParams) (cw ch c s : ℚ)
    (htw : 1 / 10 ≤ cw) (hth : 1 / 10 ≤ ch)
    (i j : ℕ) (hi : i < (generateChipGrid wp cw ch c s).length)
    (hj : j < (generateChipGrid wp cw ch c s).length) (hne : j ≠ i) :
    ¬(|((generateChipGrid wp cw ch c s).get ⟨j, hj⟩).x -
          ((generateChipGrid wp cw ch c s).get ⟨i, hi⟩).x| < 1 / 10 ∧
        |((generateChipGrid wp cw ch c s).get ⟨j, hj⟩).y -
          ((generateChipGrid wp cw ch c s).get ⟨i, hi⟩).y| < 1 / 10) := by
  have hw : 0 < cw := lt_of_lt_of_le (by norm_num) htw
  have hh : 0 < ch := lt_of_lt_of_le (by norm_num) hth
  have hcells : j / (numColsOf wp cw).toNat ≠ i / (numColsOf wp cw).toNat ∨
      j % (numColsOf wp cw).toNat ≠ i % (numColsOf wp cw).toNat := by
    by_contra hcon
    push_neg at hcon
    obtain ⟨h1, h2⟩ := hcon
    have hdj := Nat.div_add_mod j (numColsOf wp cw).toNat
    have hdi := Nat.div_add_mod i (numColsOf wp cw).toNat
    rw [h1, h2] at hdj
    exact hne (by omega)
  rw [generateChipGrid_get wp cw ch c s hw hh i hi,
    generateChipGrid_get wp cw ch c s hw hh j hj]
  simp only [mkChip_x, mkChip_y, cellX, cellY, genCtx]
  rintro ⟨hx, hy⟩
  rcases hcells with hrow | hcol
  · exact pitch_gap _ _ ch _ hh hth hrow hy
  · exact pitch_gap _ _ cw _ hw htw hcol hx

/-- C6 (amended): for a grid whose chip pitch is at least the 0.1 mm matching
tolerance in both axes, exporting the edited collection (positions serialized
exactly, color and label present, nulls stripped) and reconciling a fresh
generation with the same parameters against it reconstructs a chip collection
with identical id, x, y, width, height, inside and number per chip, and every
edited (truthy) color and label preserved on the inside chips.  Below the
tolerance the claim fails (see the counterexample): first-match-wins can bind
a new chip to a neighboring saved chip and drop edits. -/
theorem round_trip_amended (wp : WaferParams) (cw ch cosHalf sinHalf : ℚ)
    (htw : 1 / 10 ≤ cw) (hth : 1 / 10 ≤ ch)
    (edited : List Chip)
    (hedit : editedFrom (generateChipGrid wp cw ch cosHalf sinHalf) edited)
    (hcolor : ∀ cmem ∈ edited, cmem.color ≠ "") :
    editedFrom edited
      (reconcile (edited.map exportChip) (generateChipGrid wp cw ch cosHalf sinHalf)) ∧
    ∀ (i : ℕ)
      (h1 : i < (reconcile (edited.map exportChip)
        (generateChipGrid wp cw ch cosHalf sinHalf)).length)
      (h2 : i < edited.length),
      (edited.get ⟨i, h2⟩).inside = true →
        ((reconcile (edited.map exportChip)
            (generateChipGrid wp cw ch cosHalf sinHalf)).get ⟨i, h1⟩).color =
            (edited.get ⟨i, h2⟩).color ∧
          ((reconcile (edited.map exportChip)
              (generateChipGrid wp cw ch cosHalf sinHalf)).get ⟨i, h1⟩).label =
            (edited.get ⟨i, h2⟩).label := by
  obtain ⟨helen, hegeo⟩ := hedit
  have hrl : (reconcile (edited.map exportChip)
      (generateChipGrid wp cw ch cosHalf sinHalf)).length =
      (generateChipGrid wp cw ch cosHalf sinHalf).length := by
    simp [reconcile]
  have hrecon_get : ∀ (i : ℕ)
      (h1 : i < (reconcile (edited.map exportChip)
        (generateChipGrid wp cw ch cosHalf sinHalf)).length)
      (hL : i < (generateChipGrid wp cw ch cosHalf sinHalf).length),
      (reconcile (edited.map exportChip)
        (generateChipGrid wp cw ch cosHalf sinHalf)).get ⟨i, h1⟩ =
        reconcileChip (edited.map exportChip)
          ((generateChipGrid wp cw ch cosHalf sinHalf).get ⟨i, hL⟩) := by
    intro i h1 hL
    unfold reconcile
    simp [List.get_eq_getElem]
  have hsaved_get : ∀ (i : ℕ) (hs : i < (edited.map exportChip).length)
      (he : i < edited.length),
      (edited.map exportChip).get ⟨i, hs⟩ = exportChip (edited.get ⟨i, he⟩) := by
    intro i hs he
    simp [List.get_eq_getElem]
  constructor
  · refine ⟨by rw [hrl, ← helen], ?_⟩
    intro i h1 h2
    have hL : i < (generateChipGrid wp cw ch cosHalf sinHalf).length := by
      rw [← hrl]
      exact h1
    rw [hrecon_get i h1 hL]
    refine geoEqChip_trans _ _ _ (reconcileChip_geo _ _) ?_
    exact geoEqChip_symm _ _ (hegeo i h2 hL)
  · intro i h1 h2 hin
    have hL : i < (generateChipGrid wp cw ch cosHalf sinHalf).length := by
      rw [← hrl]
      exact h1
    have hs : i < (edited.map exportChip).length := by
      rw [List.length_map]
      exact h2
    have hgeo := hegeo i h2 hL
    have hncin : ((generateChipGrid wp cw ch cosHalf sinHalf).get ⟨i, hL⟩).inside =
        true := by
      rw [← hgeo.2.2.2.2.2.1]
      exact hin
    have hfind : (edited.map exportChip).find?
        (fun ic => matchesPos ic
          ((generateChipGrid wp cw ch cosHalf sinHalf).get ⟨i, hL⟩)) =
        some ((edited.map exportChip).get ⟨i, hs⟩) := by
      refine find?_eq_get_of_first _ _ i hs ?_ ?_
      · rw [hsaved_get i hs h2, matchesPos_iff]
        simp only [exportChip]
        rw [hgeo.2.1, hgeo.2.2.1]
        constructor <;> (rw [sub_self, abs_zero]; norm_num)
      · intro j hj hjlt
        have hje : j < edited.length := by
          rw [List.length_map] at hj
          exact hj
        have hjL : j < (generateChipGrid wp cw ch cosHalf sinHalf).length := by
          rw [← helen]
          exact hje
        rw [hsaved_get j hj hje]
        apply Bool.eq_false_iff.mpr
        intro hmat
        rw [matchesPos_iff] at hmat
        simp only [exportChip] at hmat
        rw [(hegeo j hje hjL).2.1, (hegeo j hje hjL).2.2.1] at hmat
        exact absurd hmat
          (grid_separation wp cw ch cosHalf sinHalf htw hth i j hL hjL
            (Nat.ne_of_lt hjlt))
    rw [hrecon_get i h1 hL, reconcileChip_inside _ _ hncin, hfind,
      hsaved_get i hs h2]
    have hlab0 : ((generateChipGrid wp cw ch cosHalf sinHalf).get ⟨i, hL⟩).label =
        "" :=
      (mem_generateChipGrid_fields wp cw ch cosHalf sinHalf _
        (List.get_mem _ _ _)).2.2.2.1
    exact applySaved_export (edited.get ⟨i, h2⟩) _
      (hcolor _ (List.get_mem _ _ _)) hlab0

lemma tiny_cols : numColsOf tinyWafer (1 / 20) = 5 := by
  show (⌈(3 / 20 : ℚ) / (1 / 20)⌉ + 2 : ℤ) = 5
  rw [show ((3 / 20 : ℚ) / (1 / 20)) = ((3 : ℤ) : ℚ) by norm_num, Int.ceil_intCast]
  norm_num

lemma tiny_rows : numRowsOf tinyWafer (1 / 20) = 5 := by
  show (⌈(3 / 20 : ℚ) / (1 / 20)⌉ + 2 : ℤ) = 5
  rw [show ((3 / 20 : ℚ) / (1 / 20)) = ((3 : ℤ) : ℚ) by norm_num, Int.ceil_intCast]
  norm_num

/-- Counterexample to C6 as stated: with chip pitch 0.05 mm — below the
0.1 mm matching tolerance — the unique inside chip of the 0.15 mm wafer is
edited with label A, exported, and reconciled against a regeneration with
identical parameters; first-match-wins binds the regenerated chip to an
earlier saved neighbor 0.05 mm away whose label is empty (falsy), so the
label A survives nowhere: the round trip does not preserve the edit. -/
theorem round_trip_counterexample :
    tinyEdited.countP (fun c => c.label == "A") = 1 ∧
      tinyRecon.countP (fun c => c.label == "A") = 0 := by
  unfold tinyRecon tinySaved tinyEdited tinyGrid generateChipGrid firstPass genCtx
  rw [tiny_cols, tiny_rows]
  with_unfolding_all decide

/-- Witness for the amended C6: the identity edit on the diameter-40 grid
(default colors are truthy) satisfies every hypothesis. -/
theorem round_trip_amended_witness :
    ((1 : ℚ) / 10 ≤ 10) ∧
      (editedFrom (generateChipGrid ⟨40, 0, 0⟩ 10 12 1 0)
          (reconcile ((generateChipGrid ⟨40, 0, 0⟩ 10 12 1 0).map exportChip)
            (generateChipGrid ⟨40, 0, 0⟩ 10 12 1 0)) ∧
        ∀ (i : ℕ)
          (h1 : i < (reconcile ((generateChipGrid ⟨40, 0, 0⟩ 10 12 1 0).map exportChip)
            (generateChipGrid ⟨40, 0, 0⟩ 10 12 1 0)).length)
          (h2 : i < (generateChipGrid ⟨40, 0, 0⟩ 10 12 1 0).length),
          ((generateChipGrid ⟨40, 0, 0⟩ 10 12 1 0).get ⟨i, h2⟩).inside = true →
            ((reconcile ((generateChipGrid ⟨40, 0, 0⟩ 10 12 1 0).map exportChip)
                (generateChipGrid ⟨40, 0, 0⟩ 10 12 1 0)).get ⟨i, h1⟩).color =
                ((generateChipGrid ⟨40, 0, 0⟩ 10 12 1 0).get ⟨i, h2⟩).color ∧
              ((reconcile ((generateChipGrid ⟨40, 0, 0⟩ 10 12 1 0).map exportChip)
                  (generateChipGrid ⟨40, 0, 0⟩ 10 12 1 0)).get ⟨i, h1⟩).label =
                ((generateChipGrid ⟨40, 0, 0⟩ 10 12 1 0).get ⟨i, h2⟩).label) :=
  ⟨by norm_num,
    round_trip_amended ⟨40, 0, 0⟩ 10 12 1 0 (by norm_num) (by norm_num)
      (generateChipGrid ⟨40, 0, 0⟩ 10 12 1 0)
      ⟨rfl, fun i h1 h2 => geoEqChip_refl _⟩
      (fun cmem hcm => by
        rw [(mem_generateChipGrid_fields ⟨40, 0, 0⟩ 10 12 1 0 cmem hcm).2.2.1]
        simp)⟩

/-- Witness for C7: excludedRadius equal to the wafer radius (10/2 = 5). -/
theorem over_excluded_all_outside_witness :
    ((10 : ℚ) / 2 - 5 ≤ 0) ∧
      ((generateChipGrid ⟨10, 0, 5⟩ 5 5 1 0).length =
          (numRowsOf ⟨10, 0, 5⟩ 5).toNat * (numColsOf ⟨10, 0, 5⟩ 5).toNat ∧
        ∀ cmem ∈ generateChipGrid ⟨10, 0, 5⟩ 5 5 1 0,
          cmem.inside = false ∧ cmem.number = none) :=
  ⟨by norm_num,
    over_excluded_all_outside ⟨10, 0, 5⟩ 5 5 1 0 (by norm_num) (by norm_num) (by norm_num)⟩

end WaferMapper
